import Mathlib

/-!
Verification of the fetch-orchestration, cache and reconciliation layer of the
`fcli` finance CLI, as a shallow embedding in Lean.

Conventions of the embedding:
* `report_date` is represented as an integer month index (the save path of
  `GoldService.fetch_all_with_auto_update` always stores the first day of a
  month, parsed from a `%Y-%m` string); `DATE_SUB(d, INTERVAL 1 YEAR)` becomes
  `d - 12`.
* Numeric amounts are modelled as `Int` (the claims under study concern
  presence, absence and identity of values, not float rounding).
* SQL result sets are lists in store order; the final `ORDER BY amount DESC`
  of the two delta queries is presentation-only and is not modelled (none of
  the claims concern output ordering).
* Database/network failures are modelled with `Option`: `none` on an oracle
  means the corresponding call raised.
-/

/- ============================================================
   GoldReserveStore (src/fcli/core/stores/gold.py) and the
   gold_reserves table (UNIQUE KEY uk_country_date
   (country_code, report_date), src/fcli/scripts/migrate.py)
   ============================================================ -/

structure GoldRow where
  country_code : String
  country_name : String
  amount_tonnes : Int
  gold_share_pct : Option Int
  gold_value_usd_m : Option Int
  percent_of_reserves : Option Int
  report_date : Int
  data_source : String
  fetch_time : Nat
deriving DecidableEq

/-- The uniqueness key of the `gold_reserves` table: `(country_code, report_date)`. -/
def rowKey (r : GoldRow) : String × Int := (r.country_code, r.report_date)

def keyEq (a b : GoldRow) : Bool := decide (rowKey a = rowKey b)

/-- No two rows of the store share a `(country_code, report_date)` key
(the `UNIQUE KEY uk_country_date` constraint). -/
def uniqueKeysB : List GoldRow → Bool
  | [] => true
  | r :: rest => rest.all (fun s => !(keyEq r s)) && uniqueKeysB rest

/-- `ON DUPLICATE KEY UPDATE` of `GoldReserveStore.save_batch`: every non-key
column is replaced by the incoming row's value; the key columns stay. -/
def applyUpdate (old new : GoldRow) : GoldRow :=
  { old with
    country_name := new.country_name
    amount_tonnes := new.amount_tonnes
    gold_share_pct := new.gold_share_pct
    gold_value_usd_m := new.gold_value_usd_m
    percent_of_reserves := new.percent_of_reserves
    data_source := new.data_source
    fetch_time := new.fetch_time }

/-- One `INSERT ... ON DUPLICATE KEY UPDATE` row write. -/
def upsertRow (store : List GoldRow) (r : GoldRow) : List GoldRow :=
  if store.any (fun s => keyEq s r) then
    store.map (fun s => if keyEq s r then applyUpdate s r else s)
  else
    store ++ [r]

/-- `GoldReserveStore.save_batch`: returns the new store and the value returned
to the caller (`len(values)` after `executemany`, `0` when the store is
disabled or the batch empty). -/
def save_batch (enabled : Bool) (store : List GoldRow) (reserves : List GoldRow) :
    List GoldRow × Nat :=
  if enabled = false ∨ reserves = [] then (store, 0)
  else (reserves.foldl upsertRow store, reserves.length)

def countryRows (store : List GoldRow) (c : String) : List GoldRow :=
  store.filter (fun r => decide (r.country_code = c))

/-- Membership in the `latest` CTE: the row's `report_date` equals the maximum
`report_date` of its country. -/
def isLatest (store : List GoldRow) (r : GoldRow) : Bool :=
  (countryRows store r.country_code).all (fun s => decide (s.report_date ≤ r.report_date))

def latestRows (store : List GoldRow) : List GoldRow :=
  store.filter (isLatest store)

/-- Rows of the same country strictly before a given latest row. -/
def beforeRows (store : List GoldRow) (l : GoldRow) : List GoldRow :=
  store.filter (fun r =>
    decide (r.country_code = l.country_code ∧ r.report_date < l.report_date))

/-- `ORDER BY report_date DESC LIMIT 1 OFFSET k` over the same-country rows
strictly before `l`: the row having exactly `k` rows with a strictly greater
date among them (dates are unique per country under the table's key). -/
def nthPrevAmount (store : List GoldRow) (l : GoldRow) (k : Nat) : Option Int :=
  ((beforeRows store l).find? (fun r =>
      decide (((beforeRows store l).filter
        (fun s => decide (r.report_date < s.report_date))).length = k))).map
    (·.amount_tonnes)

/-- `COALESCE(l.amount_tonnes - sub, 0)`: SQL `NULL` propagates through the
subtraction, so a missing subquery result gives `0`. -/
def coalesceSub (a : Int) (o : Option Int) : Int :=
  match o with
  | some v => a - v
  | none => 0

structure MultiChangeRow where
  code : String
  country : String
  amount : Int
  percent_of_reserves : Option Int
  date : Int
  source : String
  change_1m : Int
  change_3m : Int
  change_6m : Int
  change_12m : Int
deriving DecidableEq

def multiChangeRowOf (store : List GoldRow) (l : GoldRow) : MultiChangeRow :=
  { code := l.country_code
    country := l.country_name
    amount := l.amount_tonnes
    percent_of_reserves := l.percent_of_reserves
    date := l.report_date
    source := l.data_source
    change_1m := coalesceSub l.amount_tonnes (nthPrevAmount store l 0)
    change_3m := coalesceSub l.amount_tonnes (nthPrevAmount store l 2)
    change_6m := coalesceSub l.amount_tonnes (nthPrevAmount store l 5)
    change_12m := coalesceSub l.amount_tonnes (nthPrevAmount store l 11) }

/-- `GoldReserveStore.get_latest_with_multi_period_changes`. -/
def get_latest_with_multi_period_changes (store : List GoldRow) : List MultiChangeRow :=
  (latestRows store).map (multiChangeRowOf store)

def distinctDates (store : List GoldRow) : List Int :=
  (store.map (·.report_date)).dedup

/-- `SELECT DISTINCT report_date ... ORDER BY report_date DESC LIMIT 1 OFFSET 1`:
the second most recent distinct report date across the WHOLE table. -/
def secondMaxDate (store : List GoldRow) : Option Int :=
  (distinctDates store).find? (fun d =>
    decide (((distinctDates store).filter (fun e => decide (d < e))).length = 1))

/-- `SELECT MAX(report_date) FROM gold_reserves` (global maximum). -/
def maxDate (store : List GoldRow) : Option Int :=
  (distinctDates store).find? (fun d =>
    decide (((distinctDates store).filter (fun e => decide (d < e))).length = 0))

/-- The row of a given country at an exact date (unique under the table key). -/
def rowAt (store : List GoldRow) (c : String) (d : Int) : Option GoldRow :=
  store.find? (fun r => decide (r.country_code = c ∧ r.report_date = d))

/-- The `prev_1m` CTE of `get_latest_with_changes`, left-joined on country:
the country's amount at the globally second most recent distinct date. -/
def prev1mAmount (store : List GoldRow) (c : String) : Option Int :=
  match secondMaxDate store with
  | some d => (rowAt store c d).map (·.amount_tonnes)
  | none => none

/-- The `prev_1y` CTE of `get_latest_with_changes`: the country's amount at
exactly one year (12 months) before the globally latest date. -/
def prev1yAmount (store : List GoldRow) (c : String) : Option Int :=
  match maxDate store with
  | some d => (rowAt store c (d - 12)).map (·.amount_tonnes)
  | none => none

structure ChangeRow where
  code : String
  country : String
  amount : Int
  percent_of_reserves : Option Int
  date : Int
  source : String
  change_1m : Int
  change_1y : Int
deriving DecidableEq

def changeRowOf (store : List GoldRow) (l : GoldRow) : ChangeRow :=
  { code := l.country_code
    country := l.country_name
    amount := l.amount_tonnes
    percent_of_reserves := l.percent_of_reserves
    date := l.report_date
    source := l.data_source
    change_1m := coalesceSub l.amount_tonnes (prev1mAmount store l.country_code)
    change_1y := coalesceSub l.amount_tonnes (prev1yAmount store l.country_code) }

/-- `GoldReserveStore.get_latest_with_changes`. -/
def get_latest_with_changes (store : List GoldRow) : List ChangeRow :=
  (latestRows store).map (changeRowOf store)

/-- Modelled from the spec's delta rule, for comparison with the code:
"referenceObservation is the most recent Observation with
period ≤ (latest.period − horizon)". -/
def specCandidates (store : List GoldRow) (l : GoldRow) (horizon : Int) :
    List GoldRow :=
  store.filter (fun r =>
    decide (r.country_code = l.country_code ∧
      r.report_date ≤ l.report_date - horizon))

def specReferenceRow (store : List GoldRow) (l : GoldRow) (horizon : Int) :
    Option GoldRow :=
  (specCandidates store l horizon).find? (fun r =>
    (specCandidates store l horizon).all (fun s => decide (s.report_date ≤ r.report_date)))

/-- Modelled from the spec's delta rule:
"delta = latest.value − referenceObservation.value", absent when no
reference observation exists. -/
def specDelta (store : List GoldRow) (l : GoldRow) (horizon : Int) : Option Int :=
  (specReferenceRow store l horizon).map (fun r => l.amount_tonnes - r.amount_tonnes)

/-- The keys of the stored rows, in store order. -/
def keysOf (s : List GoldRow) : List (String × Int) := s.map rowKey

/-- The non-key columns updated by `ON DUPLICATE KEY UPDATE`. -/
def nonKeyFields (r : GoldRow) :
    String × Int × Option Int × Option Int × Option Int × String × Nat :=
  (r.country_name, r.amount_tonnes, r.gold_share_pct, r.gold_value_usd_m,
    r.percent_of_reserves, r.data_source, r.fetch_time)

/- ============================================================
   Cache layer (src/fcli/core/cache.py)
   ============================================================ -/

structure CacheEntry (α : Type) where
  data : α
  expire_at : Nat
deriving DecidableEq

/-- The `FileCache._cache` dict, as a partial map from keys to entries. -/
def CacheMap (α : Type) : Type := String → Option (CacheEntry α)

/-- `FileCache.get`: returns the payload while `expire_at > now`, and on
expiry deletes the entry as a side effect of the read (lazy eviction). -/
def FileCache_get {α : Type} (st : CacheMap α) (now : Nat) (key : String) :
    Option α × CacheMap α :=
  match st key with
  | some e =>
      if now < e.expire_at then (some e.data, st)
      else (none, fun k => if k = key then none else st k)
  | none => (none, st)

/-- `FileCache.set`: unconditional overwrite with `expire_at = now + ttl`. -/
def FileCache_set {α : Type} (st : CacheMap α) (now : Nat) (key : String)
    (v : α) (ttl : Nat) : CacheMap α :=
  fun k => if k = key then some ⟨v, now + ttl⟩ else st k

/-- `HybridCache` process state.  `_redis_cache` is constructed exactly when
`use_redis` holds, so its presence is identified with `useRedis`. -/
structure HybridState (α : Type) where
  file : CacheMap α
  useRedis : Bool
  redisFailed : Bool

/-- `HybridCache.async_get`.  `redisResp` is the value the Redis backend
returns for this call; `RedisCache.async_get` returns `none` both on a
connection/command error and on a genuine missing key, so one `Option`
covers both.  The last component records whether Redis was consulted. -/
def HybridCache_async_get {α : Type} (redisResp : Option α) (now : Nat)
    (key : String) (s : HybridState α) : Option α × HybridState α × Bool :=
  if s.useRedis && !s.redisFailed then
    match redisResp with
    | some v => (some v, s, true)
    | none =>
        let p := FileCache_get s.file now key
        (p.1, { s with file := p.2, redisFailed := true }, true)
  else
    let p := FileCache_get s.file now key
    (p.1, { s with file := p.2 }, false)

/-- `HybridCache.async_set`: always writes the file cache; attempts the Redis
write whenever Redis is configured (the `_redis_failed` flag is not
consulted).  The Bool records whether the Redis write was attempted. -/
def HybridCache_async_set {α : Type} (now : Nat) (key : String) (v : α)
    (ttl : Nat) (s : HybridState α) : HybridState α × Bool :=
  ({ s with file := FileCache_set s.file now key v ttl }, s.useRedis)

/- ============================================================
   QuoteService (src/fcli/services/quote_service.py) and
   ForexService (src/fcli/services/forex_service.py)
   ============================================================ -/

inductive Market where
  | CN | HK | US | FUND | GLOBAL | FOREX | BOND
deriving DecidableEq

inductive AssetType where
  | STOCK | FUND | INDEX | FOREX | BOND
deriving DecidableEq

structure Asset where
  code : String
  api_code : String
  name : String
  market : Market
  type : AssetType
deriving DecidableEq

/-- Outcome of one provider invocation for one entity: the call raised
(`err`), returned no usable payload (`nores`, the `None` returns of the
`_fetch_*` helpers), or produced a quote. -/
inductive PResult (α : Type) where
  | err
  | nores
  | ok (q : α)
deriving DecidableEq

/-- Outcome of a whole single-entity fetch: an exception propagated to the
caller (`failed`, fallback disabled), the provider list was exhausted
(`exhausted`, the final `return None`), or a quote was obtained. -/
inductive FetchOutcome (α : Type) where
  | failed
  | exhausted
  | done (q : α)
deriving DecidableEq

/-- The provider loop shared by `QuoteService.fetch_single` and
`ForexService.get_rate`: sources are taken in configured priority order;
a source not in `known` hits the `else: continue` branch without being
invoked; a `None` result falls through to the next source; an exception
re-raises when fallback is disabled and otherwise falls through.  The
second component is the trace of sources actually invoked, in order. -/
def chainLoop {α : Type} (known : List String) (fallback : Bool)
    (behave : String → PResult α) : List String → FetchOutcome α × List String
  | [] => (.exhausted, [])
  | s :: rest =>
    if s ∈ known then
      match behave s with
      | .ok q => (.done q, [s])
      | .nores =>
          let p := chainLoop known fallback behave rest
          (p.1, s :: p.2)
      | .err =>
          if fallback then
            let p := chainLoop known fallback behave rest
            (p.1, s :: p.2)
          else (.failed, [s])
    else chainLoop known fallback behave rest

/-- The source names `QuoteService.fetch_single` dispatches on. -/
def knownQuoteSources : List String := ["sina", "eastmoney", "yahoo"]

/-- The source names `ForexService.get_rate` dispatches on. -/
def knownForexSources : List String := ["frankfurter", "exchangerate"]

/-- `QuoteService.fetch_single`: answer from cache when present, otherwise
run the provider chain.  (The cache write performed on success mutates the
shared cache, not the returned value, and is not modelled here.) -/
def fetch_single {α : Type} (cached : Option α) (fallback : Bool)
    (behave : String → PResult α) (priority : List String) :
    FetchOutcome α × List String :=
  match cached with
  | some q => (.done q, [])
  | none => chainLoop knownQuoteSources fallback behave priority

/-- `ForexService.get_rate`, same loop over the forex sources. -/
def get_rate {α : Type} (cached : Option α) (fallback : Bool)
    (behave : String → PResult α) (priority : List String) :
    FetchOutcome α × List String :=
  match cached with
  | some q => (.done q, [])
  | none => chainLoop knownForexSources fallback behave priority

/- ============================================================
   QuoteService.fetch_all (src/fcli/services/quote_service.py)
   ============================================================ -/

/-- A quote as far as batch coverage is concerned: the user-facing code the
parsers copy from the asset, and the payload. -/
structure QuoteR where
  code : String
  price : Int
deriving DecidableEq

/-- Oracles for one `fetch_all` call: the synchronous cache lookups, the
per-asset outcome of each batch endpoint, whether a whole batch call raised
or returned an unusable body, and the provider behaviour seen by
`fetch_single` for assets on the single-call path. -/
structure FetchAllEnv where
  cacheOf : String → Option QuoteR
  asyncCacheOf : String → Option QuoteR
  sinaBatchOf : Market → Asset → Option QuoteR
  sinaBatchFails : Market → Bool
  globalBatchOf : Asset → Option QuoteR
  globalBatchFails : Bool
  singleBehave : Asset → String → PResult QuoteR
  fallback : Bool
  quotePriority : List String

/-- The batch-compatibility grouping of `fetch_all`: funds always take the
single-call path; only the four grouped markets have batch endpoints. -/
def isOtherAsset (a : Asset) : Bool :=
  decide (a.type = AssetType.FUND) ||
    !(decide (a.market = Market.GLOBAL) || decide (a.market = Market.CN) ||
      decide (a.market = Market.HK) || decide (a.market = Market.US))

def marketGroup (env : FetchAllEnv) (assets : List Asset) (m : Market) : List Asset :=
  (assets.filter (fun a => (env.cacheOf a.code).isNone)).filter
    (fun a => !(decide (a.type = AssetType.FUND)) && decide (a.market = m))

/-- `_fetch_sina_batch`: on any exception or empty body the whole batch
yields `[]`; otherwise exactly the assets whose response line parses get a
quote (written to cache as a side effect, not modelled on the value). -/
def sinaBatchQuotes (env : FetchAllEnv) (grp : List Asset) (m : Market) : List QuoteR :=
  if grp = [] then []
  else if env.sinaBatchFails m then []
  else grp.filterMap (env.sinaBatchOf m)

/-- `_fetch_global_batch` under `asyncio.gather(..., return_exceptions=True)`:
a raised exception is logged and contributes nothing. -/
def globalBatchQuotes (env : FetchAllEnv) (grp : List Asset) : List QuoteR :=
  if grp = [] then []
  else if env.globalBatchFails then []
  else grp.filterMap env.globalBatchOf

/-- `_fetch_others_batch`: one `fetch_single` per asset, keeping only results
that are quotes (`None` returns and exceptions are dropped). -/
def othersBatchQuotes (env : FetchAllEnv) (grp : List Asset) : List QuoteR :=
  grp.filterMap (fun a =>
    match (fetch_single (env.asyncCacheOf a.code) env.fallback
        (env.singleBehave a) env.quotePriority).1 with
    | .done q => some q
    | _ => none)

/-- `QuoteService.fetch_all`: cache hits first, then the batch tasks in the
order they are appended (GLOBAL, CN, HK, US, others); `asyncio.gather` keeps
task order, and a task that raised is logged and dropped. -/
def fetch_all (env : FetchAllEnv) (assets : List Asset) : List QuoteR :=
  let hits := assets.filterMap (fun a => env.cacheOf a.code)
  let remaining := assets.filter (fun a => (env.cacheOf a.code).isNone)
  if remaining = [] then hits
  else
    hits ++ globalBatchQuotes env (marketGroup env assets Market.GLOBAL)
      ++ sinaBatchQuotes env (marketGroup env assets Market.CN) Market.CN
      ++ sinaBatchQuotes env (marketGroup env assets Market.HK) Market.HK
      ++ sinaBatchQuotes env (marketGroup env assets Market.US) Market.US
      ++ othersBatchQuotes env (remaining.filter isOtherAsset)

/- ============================================================
   GoldService auto-refresh (src/fcli/services/gold_service.py)
   ============================================================ -/

/-- A `central_bank_schedules` row as `_should_update` consumes it. -/
structure Schedule where
  release_day : Option Nat
deriving DecidableEq

/-- One entry of `self._local_data["reserves"]`; `date` is the parsed
`%Y-%m` value (year, month), `none` when parsing raises `ValueError`. -/
structure LocalRow where
  code : String
  date : Option (Nat × Nat)
deriving DecidableEq

/-- `(y, m, d) ≤ (y', m', d')` on calendar dates. -/
def dateLE (a b : Nat × Nat × Nat) : Bool :=
  decide (a.1 < b.1 ∨ (a.1 = b.1 ∧
    (a.2.1 < b.2.1 ∨ (a.2.1 = b.2.1 ∧ a.2.2 ≤ b.2.2))))

/-- `GoldService._should_update`.  Mirrors the control flow exactly: no
schedule or no release day means update; once today's day has reached the
release day, the local-file branch scans `_local_data` and returns `False`
as soon as one matching entry's parsed month-start date is at or past this
month's release date; with the database enabled the function falls through
to the final `return False` without consulting any stored observation. -/
def should_update (dbEnabled : Bool) (localReserves : List LocalRow)
    (ty tm td : Nat) (code : String) (sched : Option Schedule) : Bool :=
  match sched with
  | none => true
  | some s =>
    match s.release_day with
    | none => true
    | some rd =>
      if rd ≤ td then
        if dbEnabled then false
        else if localReserves.any (fun r =>
            decide (r.code = code) &&
              match r.date with
              | some (y, m) => dateLE (ty, tm, rd) (y, m, 1)
              | none => false) then false
        else true
      else false

/-- The `TOP_20_COUNTRIES` codes of `gold_service.py`. -/
def TOP20 : List String :=
  ["USA", "DEU", "ITA", "FRA", "RUS", "CHN", "CHE", "JPN", "IND", "NLD",
   "TUR", "PRT", "UZB", "SAU", "GBR", "KAZ", "ESP", "AUT", "THA", "SGP"]

/-- The `need_fetch` decision of `fetch_all_with_auto_update`: forced, or
some top-20 country's schedule check asks for an update. -/
def need_fetch (force dbEnabled : Bool) (schedules : String → Option Schedule)
    (localReserves : List LocalRow) (ty tm td : Nat) : Bool :=
  force || TOP20.any (fun c =>
    should_update dbEnabled localReserves ty tm td c (schedules c))

/-- The source loop of `fetch_all_with_auto_update`.  `sourceData s = none`
models the source raising; `some []` a source that answered with no rows
(the loop moves on); a non-empty result breaks the loop.  A raised source
re-raises when fallback is disabled.  `tradingeconomics` and unknown names
fall through without being invoked.  The whole dataset of the first
succeeding source is returned; no filtering by entity ever happens. -/
def tryGoldSources (fallback : Bool) (sourceData : String → Option (List GoldRow)) :
    List String → Option (List GoldRow)
  | [] => some []
  | s :: rest =>
    if decide (s = "wgc") || decide (s = "imf") || decide (s = "central_bank") then
      match sourceData s with
      | none => if fallback then tryGoldSources fallback sourceData rest else none
      | some l => if l = [] then tryGoldSources fallback sourceData rest else some l
    else tryGoldSources fallback sourceData rest

/-- `GoldService.fetch_all_with_auto_update`, database path.  Returns `none`
when a source exception propagates (fallback disabled), otherwise the
delta-query answer, the resulting store and whether a fetch ran.  When a
fetch runs and yields data, the FULL fetched dataset is upserted; the read is
then answered by `get_latest_with_changes` on the store.  (The local-file
branch, the static default dataset used when every source fails, and the
final sort by amount are outside the claims under study.) -/
def fetch_all_with_auto_update (force : Bool)
    (schedules : String → Option Schedule) (localReserves : List LocalRow)
    (ty tm td : Nat) (store : List GoldRow) (fallback : Bool)
    (sourceData : String → Option (List GoldRow)) (goldPriority : List String) :
    Option (List ChangeRow × List GoldRow × Bool) :=
  if need_fetch force true schedules localReserves ty tm td then
    match tryGoldSources fallback sourceData goldPriority with
    | none => none
    | some data =>
        let store' := if data = [] then store else (save_batch true store data).1
        some (get_latest_with_changes store', store', true)
  else
    some (get_latest_with_changes store, store, false)

/- ============================================================
   Helper lemmas
   ============================================================ -/

theorem chainLoop_trace_sublist {α : Type} (known : List String) (fb : Bool)
    (behave : String → PResult α) (pr : List String) :
    ((chainLoop known fb behave pr).2).Sublist pr := by
  induction pr with
  | nil => simp [chainLoop]
  | cons s rest ih =>
    simp only [chainLoop]
    by_cases hs : s ∈ known
    · simp only [if_pos hs]
      cases behave s with
      | ok q => exact (List.nil_sublist rest).cons₂ s
      | nores => exact ih.cons₂ s
      | err =>
        cases fb with
        | true => simpa using ih.cons₂ s
        | false => exact (List.nil_sublist rest).cons₂ s
    · simp only [if_neg hs]
      exact (chainLoop known fb behave rest).2.sublist_cons_of_sublist s ih

/- ============================================================
   C4 — provider priority order in fetch_single
   ============================================================ -/

/-- C4: on a cache miss, `QuoteService.fetch_single` invokes providers
strictly in the configured priority-list order (the invocation trace is a
sublist of the priority list), and whenever provider 0 fails (an exception
with fallback enabled, or an unusable payload) while provider 1 succeeds,
the result is provider 1's value and provider 0 was invoked before
provider 1. -/
theorem fetch_single_priority_order {α : Type} (p0 p1 : String)
    (rest : List String) (fallback : Bool) (behave : String → PResult α) (q : α)
    (h0 : p0 ∈ knownQuoteSources) (h1 : p1 ∈ knownQuoteSources)
    (hfail : behave p0 = PResult.nores ∨ (behave p0 = PResult.err ∧ fallback = true))
    (hok : behave p1 = PResult.ok q) :
    fetch_single none fallback behave (p0 :: p1 :: rest) =
      (FetchOutcome.done q, [p0, p1]) ∧
    ∀ pr : List String,
      ((fetch_single (α := α) none fallback behave pr).2).Sublist pr := by
  constructor
  · show chainLoop knownQuoteSources fallback behave (p0 :: p1 :: rest) = _
    rcases hfail with hf | ⟨hf, hfb⟩
    · simp [chainLoop, h0, h1, hf, hok]
    · simp [chainLoop, h0, h1, hf, hok, hfb]
  · intro pr
    exact chainLoop_trace_sublist knownQuoteSources fallback behave pr

/-- Witness for C4 at a concrete chain: priority `["sina", "eastmoney"]`,
sina raises with fallback enabled, eastmoney answers 42. -/
theorem fetch_single_priority_order_witness :
    ("sina" ∈ knownQuoteSources) ∧ ("eastmoney" ∈ knownQuoteSources) ∧
    fetch_single none true
        (fun s => if s = "eastmoney" then PResult.ok (42 : Int) else PResult.err)
        ["sina", "eastmoney"] = (FetchOutcome.done 42, ["sina", "eastmoney"]) :=
  ⟨by decide, by decide,
    (fetch_single_priority_order "sina" "eastmoney" [] true
      (fun s => if s = "eastmoney" then PResult.ok (42 : Int) else PResult.err) 42
      (by decide) (by decide) (Or.inr ⟨by decide, rfl⟩) (by decide)).1⟩

/- ============================================================
   C5 — fallback-disabled behaviour of fetch_single
   ============================================================ -/

/-- Counterexample to C5: with fallback disabled, provider 0 returning an
unusable payload (`None`) does NOT mark the fetch failed — the loop falls
through and provider 1's value is returned, with provider 1 consulted. -/
theorem fetch_single_nofallback_counterexample :
    fetch_single none false
        (fun s => if s = "sina" then PResult.nores else PResult.ok (42 : Int))
        ["sina", "eastmoney"] = (FetchOutcome.done 42, ["sina", "eastmoney"]) := by
  decide

/-- C5 (amended): with fallback disabled, an exception from the
first-priority provider propagates and the fetch fails without consulting
any later provider; an unusable payload instead falls through to the next
provider even with fallback disabled. -/
theorem fetch_single_nofallback_error_shortcircuit {α : Type} (p0 : String)
    (rest : List String) (behave : String → PResult α)
    (h0 : p0 ∈ knownQuoteSources) (herr : behave p0 = PResult.err) :
    fetch_single (α := α) none false behave (p0 :: rest) =
      (FetchOutcome.failed, [p0]) := by
  show chainLoop knownQuoteSources false behave (p0 :: rest) = _
  simp [chainLoop, h0, herr]

/-- Witness for the amended C5: sina raises, fallback disabled — the fetch
fails after consulting only sina, although eastmoney would have answered. -/
theorem fetch_single_nofallback_error_witness :
    ("sina" ∈ knownQuoteSources) ∧
    fetch_single none false
        (fun s => if s = "sina" then PResult.err else PResult.ok (7 : Int))
        ["sina", "eastmoney"] = (FetchOutcome.failed, ["sina"]) :=
  ⟨by decide,
    fetch_single_nofallback_error_shortcircuit "sina" ["eastmoney"]
      (fun s => if s = "sina" then PResult.err else PResult.ok (7 : Int))
      (by decide) (by decide)⟩

/- ============================================================
   C9 — FileCache TTL semantics and lazy eviction
   ============================================================ -/

/-- C9: after `set(key, value, ttl)` at time `t`, a `get(key)` at `t'`
returns the stored value while `t' < t + ttl`; at or past expiry it returns
absent and deletes the entry as a side effect of the read, so a later `get`
of the same key without an intervening `set` also returns absent. -/
theorem filecache_ttl_lazy_eviction {α : Type} (st : CacheMap α)
    (t t' u : Nat) (key : String) (v : α) (ttl : Nat) :
    (t' < t + ttl →
      FileCache_get (FileCache_set st t key v ttl) t' key =
        (some v, FileCache_set st t key v ttl)) ∧
    (t + ttl ≤ t' →
      (FileCache_get (FileCache_set st t key v ttl) t' key).1 = none ∧
      (FileCache_get (FileCache_set st t key v ttl) t' key).2 key = none ∧
      (FileCache_get ((FileCache_get (FileCache_set st t key v ttl) t' key).2)
          u key).1 = none) := by
  constructor
  · intro h
    simp [FileCache_get, FileCache_set, h]
  · intro h
    have h' : ¬ t' < t + ttl := not_lt.mpr h
    refine ⟨?_, ?_, ?_⟩ <;> simp [FileCache_get, FileCache_set, h']

/-- Witness for C9: set at time 0 with ttl 5; a read at 3 hits, a read at 5
misses and evicts, a read at 9 after the evicting read still misses. -/
theorem filecache_ttl_lazy_eviction_witness :
    (FileCache_get (FileCache_set (fun _ => none : CacheMap Nat) 0 "quote:AAPL" 42 5)
        3 "quote:AAPL" =
      (some 42, FileCache_set (fun _ => none) 0 "quote:AAPL" 42 5)) ∧
    (FileCache_get (FileCache_set (fun _ => none : CacheMap Nat) 0 "quote:AAPL" 42 5)
        5 "quote:AAPL").1 = none ∧
    (FileCache_get (FileCache_set (fun _ => none : CacheMap Nat) 0 "quote:AAPL" 42 5)
        5 "quote:AAPL").2 "quote:AAPL" = none ∧
    (FileCache_get
        (FileCache_get (FileCache_set (fun _ => none : CacheMap Nat) 0 "quote:AAPL" 42 5)
          5 "quote:AAPL").2 9 "quote:AAPL").1 = none :=
  ⟨(filecache_ttl_lazy_eviction (fun _ => none) 0 3 9 "quote:AAPL" 42 5).1 (by decide),
    (filecache_ttl_lazy_eviction (fun _ => none) 0 5 9 "quote:AAPL" 42 5).2 (by decide)⟩

/- ============================================================
   C10 — HybridCache: one Redis miss disables remote reads
   ============================================================ -/

/-- C10: an `async_get` receiving no value from Redis (error or genuine
miss) sets the failure flag; once the flag is set, every `async_get` reads
only the file cache, never consults Redis, and leaves the flag set — while
`async_set` still attempts the Redis write whenever Redis is configured,
regardless of the flag. -/
theorem hybridcache_redis_miss_latches {α : Type} (s : HybridState α)
    (resp : Option α) (n n' n'' : Nat) (key k' k'' : String) (v : α) (ttl : Nat) :
    (s.useRedis = true → s.redisFailed = false →
      (HybridCache_async_get (none : Option α) n key s).2.1.redisFailed = true ∧
      (HybridCache_async_get (none : Option α) n key s).2.2 = true) ∧
    (s.redisFailed = true →
      HybridCache_async_get resp n' k' s =
        ((FileCache_get s.file n' k').1,
          { s with file := (FileCache_get s.file n' k').2 }, false)) ∧
    ((HybridCache_async_set n'' k'' v ttl s).1.redisFailed = s.redisFailed ∧
      (HybridCache_async_set n'' k'' v ttl s).2 = s.useRedis) := by
  refine ⟨fun hu hf => ?_, fun hf => ?_, ?_, rfl⟩
  · simp [HybridCache_async_get, hu, hf]
  · simp [HybridCache_async_get, hf]
  · simp [HybridCache_async_set]

/-- Witness for C10 at a concrete state: Redis enabled and not yet failed —
a `none` response latches the flag; with the flag set, a get is answered
from the file cache without consulting Redis; a set still attempts Redis. -/
theorem hybridcache_redis_miss_latches_witness :
    ((HybridCache_async_get (none : Option Nat) 0 "k"
        ⟨fun _ => none, true, false⟩).2.1.redisFailed = true ∧
      (HybridCache_async_get (none : Option Nat) 0 "k"
        ⟨fun _ => none, true, false⟩).2.2 = true) ∧
    (HybridCache_async_get (some 3) 1 "k" (⟨fun _ => none, true, true⟩ : HybridState Nat) =
      ((FileCache_get (fun _ => none : CacheMap Nat) 1 "k").1,
        ⟨(FileCache_get (fun _ => none : CacheMap Nat) 1 "k").2, true, true⟩, false)) ∧
    ((HybridCache_async_set 2 "k" 5 60 (⟨fun _ => none, true, true⟩ : HybridState Nat)).1.redisFailed = true ∧
      (HybridCache_async_set 2 "k" 5 60 (⟨fun _ => none, true, true⟩ : HybridState Nat)).2 = true) :=
  ⟨(hybridcache_redis_miss_latches ⟨fun _ => none, true, false⟩ none 0 0 0 "k" "k" "k" 0 0).1
      rfl rfl,
    (hybridcache_redis_miss_latches ⟨fun _ => none, true, true⟩ (some 3) 0 1 2 "k" "k" "k" 5 60).2.1
      rfl,
    (hybridcache_redis_miss_latches (⟨fun _ => none, true, true⟩ : HybridState Nat) (some 3) 0 1 2 "k" "k" "k" 5 60).2.2⟩

/- ============================================================
   C8 — the count returned by save_batch
   ============================================================ -/

theorem upsertRow_length_le (store : List GoldRow) (r : GoldRow) :
    store.length ≤ (upsertRow store r).length ∧
      (upsertRow store r).length ≤ store.length + 1 := by
  unfold upsertRow
  split
  · simp
  · simp

theorem foldl_upsert_length (reserves : List GoldRow) :
    ∀ store : List GoldRow,
      store.length ≤ (reserves.foldl upsertRow store).length ∧
        (reserves.foldl upsertRow store).length ≤ store.length + reserves.length := by
  induction reserves with
  | nil => intro store; simp
  | cons r rest ih =>
    intro store
    have h1 := upsertRow_length_le store r
    have h2 := ih (upsertRow store r)
    constructor
    · exact le_trans h1.1 h2.1
    · calc (rest.foldl upsertRow (upsertRow store r)).length
          ≤ (upsertRow store r).length + rest.length := h2.2
        _ ≤ (store.length + 1) + rest.length := by omega
        _ = store.length + (r :: rest).length := by simp; omega

/-- Counterexample to C8: a batch of two observations sharing one
`(country_code, report_date)` key, applied to an empty store, stores a
single row but `save_batch` returns 2 — the batch length, not the number of
rows actually written. -/
theorem save_batch_count_counterexample :
    (save_batch true []
        [⟨"CHN", "China", 10, none, none, none, 5, "WGC", 0⟩,
         ⟨"CHN", "Chine", 20, none, none, none, 5, "IMF", 1⟩]).2 = 2 ∧
    ((save_batch true []
        [⟨"CHN", "China", 10, none, none, none, 5, "WGC", 0⟩,
         ⟨"CHN", "Chine", 20, none, none, none, 5, "IMF", 1⟩]).1).length = 1 := by
  decide

/-- C8 (amended): `save_batch` returns the number of observations in the
submitted batch (0 when the store is disabled or the batch empty), i.e. the
number of upsert statements executed — not the number of distinct rows
written, which can be strictly smaller; the store grows by at most the
batch length and never shrinks.  A database error would raise instead of
returning any partial count. -/
theorem save_batch_count (enabled : Bool) (store reserves : List GoldRow) :
    (save_batch enabled store reserves).2 =
      (if enabled = true ∧ reserves ≠ [] then reserves.length else 0) ∧
    store.length ≤ ((save_batch enabled store reserves).1).length ∧
    ((save_batch enabled store reserves).1).length ≤ store.length + reserves.length := by
  unfold save_batch
  by_cases h : enabled = false ∨ reserves = []
  · rcases h with h | h <;> simp [h]
  · push_neg at h
    have he : enabled = true := by
      cases enabled
      · exact absurd rfl h.1
      · rfl
    simp only [if_neg (by tauto), he, h.2, ne_eq, not_false_eq_true, and_self, if_pos]
    exact ⟨rfl, foldl_upsert_length reserves store⟩

/- ============================================================
   C1 — missing reference observation gives delta 0, not absent
   ============================================================ -/

theorem uniqueKeysB_eq_of_key (s : List GoldRow) (h : uniqueKeysB s = true) :
    ∀ a ∈ s, ∀ b ∈ s, rowKey a = rowKey b → a = b := by
  induction s with
  | nil => simp
  | cons r rest ih =>
    simp only [uniqueKeysB, Bool.and_eq_true, List.all_eq_true] at h
    obtain ⟨hhead, htail⟩ := h
    have hne : ∀ x ∈ rest, rowKey r ≠ rowKey x := by
      intro x hx
      have := hhead x hx
      simp only [keyEq, Bool.not_eq_true', decide_eq_false_iff_not] at this
      exact this
    intro a ha b hb hk
    cases List.mem_cons.mp ha with
    | inl h1 =>
      cases List.mem_cons.mp hb with
      | inl h2 => rw [h1, h2]
      | inr h2 => exact absurd (by rw [← h1]; exact hk) (hne b h2)
    | inr h1 =>
      cases List.mem_cons.mp hb with
      | inl h2 => exact absurd (by rw [← h2]; exact hk.symm) (hne a h1)
      | inr h2 => exact ih htail a h1 b h2 hk

theorem coalesce_rowAt_zero (store : List GoldRow) (l : GoldRow)
    (hu : uniqueKeysB store = true) (hl : l ∈ store)
    (hlatest : isLatest store l = true) (hb : beforeRows store l = []) (d : Int) :
    coalesceSub l.amount_tonnes
      ((rowAt store l.country_code d).map (·.amount_tonnes)) = 0 := by
  cases hra : rowAt store l.country_code d with
  | none => simp [coalesceSub, hra]
  | some r =>
    have hp := List.find?_some hra
    have hmem := List.mem_of_find?_eq_some hra
    simp only [decide_eq_true_eq] at hp
    have hcr : r ∈ countryRows store l.country_code :=
      List.mem_filter.mpr ⟨hmem, by simp [hp.1]⟩
    have hle : r.report_date ≤ l.report_date := by
      unfold isLatest at hlatest
      have := (List.all_eq_true.mp hlatest) r hcr
      simpa using this
    have hnlt : ¬ r.report_date < l.report_date := by
      intro hlt
      have hrb : r ∈ beforeRows store l :=
        List.mem_filter.mpr ⟨hmem, by simp [hp.1, hlt]⟩
      rw [hb] at hrb
      exact absurd hrb (List.not_mem_nil r)
    have hdeq : r.report_date = l.report_date := le_antisymm hle (not_lt.mp hnlt)
    have hrl : r = l :=
      uniqueKeysB_eq_of_key store hu r hmem l hl (by simp [rowKey, hp.1, hdeq])
    simp [coalesceSub, hrl]

theorem specReference_none_of_no_before (store : List GoldRow) (l : GoldRow)
    (hb : beforeRows store l = []) (h : Int) (hh : 1 ≤ h) :
    specReferenceRow store l h = none := by
  have hb' := List.filter_eq_nil_iff.mp hb
  have hcand : specCandidates store l h = [] := by
    rw [specCandidates, List.filter_eq_nil_iff]
    intro a ha hpa
    simp only [decide_eq_true_eq] at hpa
    have : a.report_date < l.report_date := by omega
    exact hb' a ha (by simp [hpa.1, this])
  rw [specReferenceRow, hcand]
  rfl

/-- Counterexample to C1: a store holding a single observation for "CHN".
No reference observation exists for any configured horizon (the spec-side
reference is `none` for horizons 1, 3, 6 and 12), yet both latest-with-deltas
queries return a row whose every delta is the number 0 — a caller cannot
distinguish this from a genuine zero change. -/
theorem gold_delta_absent_counterexample :
    specReferenceRow [⟨"CHN", "China", 100, none, none, none, 300, "WGC", 0⟩]
        ⟨"CHN", "China", 100, none, none, none, 300, "WGC", 0⟩ 1 = none ∧
    specReferenceRow [⟨"CHN", "China", 100, none, none, none, 300, "WGC", 0⟩]
        ⟨"CHN", "China", 100, none, none, none, 300, "WGC", 0⟩ 12 = none ∧
    get_latest_with_multi_period_changes
        [⟨"CHN", "China", 100, none, none, none, 300, "WGC", 0⟩] =
      [⟨"CHN", "China", 100, none, 300, "WGC", 0, 0, 0, 0⟩] ∧
    get_latest_with_changes
        [⟨"CHN", "China", 100, none, none, none, 300, "WGC", 0⟩] =
      [⟨"CHN", "China", 100, none, 300, "WGC", 0, 0⟩] := by
  decide

/-- C1 (amended): when an entity has no stored observation before its latest
period (so the spec-side reference observation is absent for every positive
horizon), the latest-with-deltas queries still report every delta for that
entity, as the number 0 (`COALESCE` default) — never as an absent value. -/
theorem gold_delta_zero_when_no_reference (store : List GoldRow) (l : GoldRow)
    (hu : uniqueKeysB store = true) (hl : l ∈ latestRows store)
    (hb : beforeRows store l = []) :
    (∀ h : Int, 1 ≤ h → specReferenceRow store l h = none) ∧
    (multiChangeRowOf store l).change_1m = 0 ∧
    (multiChangeRowOf store l).change_3m = 0 ∧
    (multiChangeRowOf store l).change_6m = 0 ∧
    (multiChangeRowOf store l).change_12m = 0 ∧
    (changeRowOf store l).change_1m = 0 ∧
    (changeRowOf store l).change_1y = 0 := by
  obtain ⟨hls, hlat⟩ := List.mem_filter.mp hl
  refine ⟨fun h hh => specReference_none_of_no_before store l hb h hh, ?_, ?_, ?_, ?_, ?_, ?_⟩
  · simp [multiChangeRowOf, nthPrevAmount, hb, coalesceSub]
  · simp [multiChangeRowOf, nthPrevAmount, hb, coalesceSub]
  · simp [multiChangeRowOf, nthPrevAmount, hb, coalesceSub]
  · simp [multiChangeRowOf, nthPrevAmount, hb, coalesceSub]
  · show coalesceSub l.amount_tonnes (prev1mAmount store l.country_code) = 0
    unfold prev1mAmount
    cases hsm : secondMaxDate store with
    | none => simp [coalesceSub]
    | some d => exact coalesce_rowAt_zero store l hu hls hlat hb d
  · show coalesceSub l.amount_tonnes (prev1yAmount store l.country_code) = 0
    unfold prev1yAmount
    cases hm : maxDate store with
    | none => simp [coalesceSub]
    | some d => exact coalesce_rowAt_zero store l hu hls hlat hb (d - 12)

/-- Witness for the amended C1: a two-country store where "CHN" has a single
observation while "USA" has two.  The global `prev_1y` reference date even
coincides with CHN's own latest period, and all CHN deltas are reported 0. -/
theorem gold_delta_zero_when_no_reference_witness :
    uniqueKeysB
        [⟨"CHN", "China", 100, none, none, none, 300, "WGC", 0⟩,
         ⟨"USA", "USA", 50, none, none, none, 312, "WGC", 0⟩,
         ⟨"USA", "USA", 49, none, none, none, 300, "WGC", 0⟩] = true ∧
    ⟨"CHN", "China", 100, none, none, none, 300, "WGC", 0⟩ ∈ latestRows
        [⟨"CHN", "China", 100, none, none, none, 300, "WGC", 0⟩,
         ⟨"USA", "USA", 50, none, none, none, 312, "WGC", 0⟩,
         ⟨"USA", "USA", 49, none, none, none, 300, "WGC", 0⟩] ∧
    (changeRowOf
        [⟨"CHN", "China", 100, none, none, none, 300, "WGC", 0⟩,
         ⟨"USA", "USA", 50, none, none, none, 312, "WGC", 0⟩,
         ⟨"USA", "USA", 49, none, none, none, 300, "WGC", 0⟩]
        ⟨"CHN", "China", 100, none, none, none, 300, "WGC", 0⟩).change_1y = 0 :=
  ⟨by decide, by decide,
    (gold_delta_zero_when_no_reference _ _ (by decide) (by decide) (by decide)).2.2.2.2.2.2⟩

/- ============================================================
   C2 — which reference observation the delta queries use
   ============================================================ -/

theorem find?_congr_pred {α : Type} (p q : α → Bool)
    (l : List α) (h : ∀ x ∈ l, p x = q x) : l.find? p = l.find? q := by
  induction l with
  | nil => rfl
  | cons a t ih =>
    have ha := h a (List.mem_cons_self a t)
    rw [List.find?_cons, List.find?_cons, ha]
    cases hq : q a with
    | true => rfl
    | false => exact ih (fun x hx => h x (List.mem_cons_of_mem a hx))

/-- Counterexample to C2: "CHN" stores months 1, 3 and 4 with amounts 10,
20 and 30.  Per the spec rule the 3-month delta references the month-1
observation (`30 − 10 = 20`, and that reference exists), but the query's
`change_3m` counts back three rows (`LIMIT 1 OFFSET 2` among the strictly
earlier rows), finds none, and reports 0. -/
theorem multi_change_3m_counterexample :
    specDelta
        [⟨"CHN", "China", 10, none, none, none, 1, "WGC", 0⟩,
         ⟨"CHN", "China", 20, none, none, none, 3, "WGC", 0⟩,
         ⟨"CHN", "China", 30, none, none, none, 4, "WGC", 0⟩]
        ⟨"CHN", "China", 30, none, none, none, 4, "WGC", 0⟩ 3 = some 20 ∧
    get_latest_with_multi_period_changes
        [⟨"CHN", "China", 10, none, none, none, 1, "WGC", 0⟩,
         ⟨"CHN", "China", 20, none, none, none, 3, "WGC", 0⟩,
         ⟨"CHN", "China", 30, none, none, none, 4, "WGC", 0⟩] =
      [⟨"CHN", "China", 30, none, 4, "WGC", 10, 0, 0, 0⟩] := by
  decide

/-- C2 (amended): in `get_latest_with_multi_period_changes` the 1-month
delta does follow the spec rule — it equals `latest.value` minus the value
of the entity's most recent observation with period ≤ latest.period − 1,
i.e. its most recent strictly-earlier observation at any distance (0 when
none exists), so the sparse example {2024-01, 2024-03} resolves against
2024-01.  The 3/6/12-month deltas instead use the 3rd/6th/12th most recent
earlier row, and `get_latest_with_changes` references global table dates. -/
theorem multi_change_1m_is_spec_delta (store : List GoldRow) (l : GoldRow) :
    (multiChangeRowOf store l).change_1m =
      coalesceSub l.amount_tonnes
        ((specReferenceRow store l 1).map (·.amount_tonnes)) := by
  have hcand : specCandidates store l 1 = beforeRows store l := by
    rw [specCandidates, beforeRows]
    apply List.filter_congr
    intro r _
    simp only [decide_eq_decide]
    constructor
    · rintro ⟨hc, hd⟩
      exact ⟨hc, by omega⟩
    · rintro ⟨hc, hd⟩
      exact ⟨hc, by omega⟩
  have hpred : ∀ r : GoldRow,
      decide (((beforeRows store l).filter
          (fun s => decide (r.report_date < s.report_date))).length = 0)
        = (beforeRows store l).all (fun s => decide (s.report_date ≤ r.report_date)) := by
    intro r
    cases hall : (beforeRows store l).all (fun s => decide (s.report_date ≤ r.report_date)) with
    | true =>
      simp only [List.all_eq_true, decide_eq_true_eq] at hall
      have hnil : (beforeRows store l).filter
          (fun s => decide (r.report_date < s.report_date)) = [] := by
        rw [List.filter_eq_nil_iff]
        intro s hs
        simp [not_lt.mpr (hall s hs)]
      simp [hnil]
    | false =>
      have hex : ∃ s ∈ beforeRows store l, r.report_date < s.report_date := by
        rcases List.all_eq_false.mp hall with ⟨s, hs, hns⟩
        exact ⟨s, hs, by simpa using hns⟩
      obtain ⟨s, hs, hlt⟩ := hex
      have hmem : s ∈ (beforeRows store l).filter
          (fun s => decide (r.report_date < s.report_date)) :=
        List.mem_filter.mpr ⟨hs, by simp [hlt]⟩
      have hlen : ((beforeRows store l).filter
          (fun s => decide (r.report_date < s.report_date))).length ≠ 0 := by
        intro h0
        rw [List.length_eq_zero] at h0
        rw [h0] at hmem
        exact absurd hmem (List.not_mem_nil s)
      simp [hlen]
  show coalesceSub l.amount_tonnes (nthPrevAmount store l 0) = _
  rw [nthPrevAmount, specReferenceRow, hcand]
  rw [find?_congr_pred _ _ (beforeRows store l) (fun r _ => hpred r)]

/- ============================================================
   C3 — upsert keeps at most one row per key, last write wins
   ============================================================ -/

theorem keysOf_upsert (s : List GoldRow) (r : GoldRow) :
    keysOf (upsertRow s r) =
      if s.any (fun x => keyEq x r) = true then keysOf s
      else keysOf s ++ [rowKey r] := by
  unfold upsertRow
  cases hany : s.any (fun x => keyEq x r) with
  | true =>
    simp only [hany, if_true, keysOf, List.map_map]
    apply List.map_congr_left
    intro x _
    by_cases hk : keyEq x r = true
    · simp [Function.comp, hk, applyUpdate, rowKey]
    · simp [Function.comp, hk]
  | false =>
    simp [hany, keysOf]

theorem uniqueKeysB_iff_nodup (s : List GoldRow) :
    uniqueKeysB s = true ↔ (keysOf s).Nodup := by
  induction s with
  | nil => simp [uniqueKeysB, keysOf]
  | cons r rest ih =>
    simp only [uniqueKeysB, Bool.and_eq_true, List.all_eq_true, keysOf,
      List.map_cons, List.nodup_cons]
    constructor
    · rintro ⟨h1, h2⟩
      refine ⟨?_, ih.mp h2⟩
      intro hmem
      rcases List.mem_map.mp hmem with ⟨x, hx, hkx⟩
      have := h1 x hx
      simp only [keyEq, Bool.not_eq_true', decide_eq_false_iff_not] at this
      exact this hkx.symm
    · rintro ⟨h1, h2⟩
      refine ⟨?_, ih.mpr h2⟩
      intro x hx
      simp only [keyEq, Bool.not_eq_true', decide_eq_false_iff_not]
      intro hkey
      exact h1 (List.mem_map.mpr ⟨x, hx, hkey.symm⟩)

theorem uniqueKeysB_upsert (s : List GoldRow) (r : GoldRow)
    (h : uniqueKeysB s = true) : uniqueKeysB (upsertRow s r) = true := by
  rw [uniqueKeysB_iff_nodup] at h ⊢
  rw [keysOf_upsert]
  cases hany : s.any (fun x => keyEq x r) with
  | true => simpa using h
  | false =>
    have hnot : rowKey r ∉ keysOf s := by
      intro hmem
      rcases List.mem_map.mp hmem with ⟨x, hx, hkx⟩
      have : s.any (fun x => keyEq x r) = true :=
        List.any_eq_true.mpr ⟨x, hx, by simp [keyEq, hkx]⟩
      rw [hany] at this
      cases this
    simp [List.nodup_append, h, hnot]

theorem uniqueKeysB_foldl (batch : List GoldRow) :
    ∀ s : List GoldRow, uniqueKeysB s = true →
      uniqueKeysB (batch.foldl upsertRow s) = true := by
  induction batch with
  | nil => intro s h; exact h
  | cons r rest ih => intro s h; exact ih _ (uniqueKeysB_upsert s r h)

theorem filter_keyEq_length_one (s : List GoldRow) (r : GoldRow)
    (hu : uniqueKeysB s = true) (hany : s.any (fun y => keyEq y r) = true) :
    (s.filter (fun y => keyEq y r)).length = 1 := by
  induction s with
  | nil => simp at hany
  | cons a t ih =>
    simp only [uniqueKeysB, Bool.and_eq_true, List.all_eq_true] at hu
    obtain ⟨h1, h2⟩ := hu
    cases hk : keyEq a r with
    | true =>
      have htnil : t.filter (fun y => keyEq y r) = [] := by
        rw [List.filter_eq_nil_iff]
        intro y hy hky
        have hka : rowKey a = rowKey r := by simpa [keyEq] using hk
        have hky' : rowKey y = rowKey r := by simpa [keyEq] using hky
        have := h1 y hy
        simp only [keyEq, Bool.not_eq_true', decide_eq_false_iff_not] at this
        exact this (hka.trans hky'.symm)
      simp [List.filter_cons, hk, htnil]
    | false =>
      have hany' : t.any (fun y => keyEq y r) = true := by
        rcases List.any_eq_true.mp hany with ⟨y, hy, hky⟩
        rcases List.mem_cons.mp hy with h | h
        · rw [h] at hky
          rw [hk] at hky
          cases hky
        · exact List.any_eq_true.mpr ⟨y, h, hky⟩
      simp [List.filter_cons, hk, ih h2 hany']

theorem upsert_filter_values (s : List GoldRow) (r : GoldRow) :
    ∀ x ∈ (upsertRow s r).filter (fun y => keyEq y r),
      nonKeyFields x = nonKeyFields r := by
  intro x hx
  rw [List.mem_filter] at hx
  obtain ⟨hmem, hkx⟩ := hx
  unfold upsertRow at hmem
  split at hmem
  · rcases List.mem_map.mp hmem with ⟨y, hy, hfy⟩
    by_cases hky : keyEq y r = true
    · rw [if_pos hky] at hfy
      rw [← hfy]
      rfl
    · rw [if_neg hky] at hfy
      rw [← hfy] at hkx
      exact absurd hkx hky
  · rename_i hany
    rcases List.mem_append.mp hmem with h | h
    · exact absurd (List.any_eq_true.mpr ⟨x, h, hkx⟩) hany
    · rw [List.mem_singleton.mp h]

theorem upsert_filter_length (s : List GoldRow) (r : GoldRow)
    (hu : uniqueKeysB s = true) :
    ((upsertRow s r).filter (fun y => keyEq y r)).length = 1 := by
  have hu' : uniqueKeysB (upsertRow s r) = true := uniqueKeysB_upsert s r hu
  have hany : (upsertRow s r).any (fun y => keyEq y r) = true := by
    unfold upsertRow
    cases h : s.any (fun y => keyEq y r) with
    | true =>
      simp only [h, if_true]
      rcases List.any_eq_true.mp h with ⟨y, hy, hky⟩
      refine List.any_eq_true.mpr
        ⟨(if keyEq y r = true then applyUpdate y r else y),
          List.mem_map_of_mem _ hy, ?_⟩
      rw [if_pos hky]
      simpa [keyEq, rowKey, applyUpdate] using hky
    | false =>
      simp only [h, Bool.false_eq_true, if_false]
      exact List.any_eq_true.mpr
        ⟨r, List.mem_append.mpr (Or.inr (List.mem_singleton.mpr rfl)),
          by simp [keyEq]⟩
  exact filter_keyEq_length_one (upsertRow s r) r hu' hany

/-- C3: through `save_batch`, any sequence of upserts keeps at most one
stored row per `(country_code, report_date)` key, and upserting two
observations with the same key in succession leaves exactly one row
carrying the second write's non-key values (its source and fetch time
included) — regardless of which `data_source` produced either. -/
theorem save_batch_upsert_last_write_wins (s batch : List GoldRow)
    (r1 r2 : GoldRow) (hu : uniqueKeysB s = true) (hk : rowKey r1 = rowKey r2) :
    uniqueKeysB ((save_batch true s batch).1) = true ∧
    (((save_batch true s [r1, r2]).1).filter (fun y => keyEq y r2)).length = 1 ∧
    (∀ x ∈ ((save_batch true s [r1, r2]).1).filter (fun y => keyEq y r2),
      nonKeyFields x = nonKeyFields r2) ∧
    ((save_batch true s [r1, r2]).1).filter (fun y => keyEq y r1) =
      ((save_batch true s [r1, r2]).1).filter (fun y => keyEq y r2) := by
  have hs2 : (save_batch true s [r1, r2]).1 = upsertRow (upsertRow s r1) r2 := by
    simp [save_batch]
  have hu1 : uniqueKeysB (upsertRow s r1) = true := uniqueKeysB_upsert s r1 hu
  refine ⟨?_, ?_, ?_, ?_⟩
  · by_cases hb : batch = []
    · simpa [save_batch, hb] using hu
    · simpa [save_batch, hb] using uniqueKeysB_foldl batch s hu
  · rw [hs2]
    exact upsert_filter_length (upsertRow s r1) r2 hu1
  · rw [hs2]
    exact upsert_filter_values (upsertRow s r1) r2
  · apply List.filter_congr
    intro x _
    simp [keyEq, hk]

/-- Witness for C3: a store holding one USA row; two CHN observations with
the same `(country_code, report_date)` key, from different sources, are
upserted in succession. -/
theorem save_batch_upsert_last_write_wins_witness :
    uniqueKeysB [⟨"USA", "USA", 50, none, none, none, 312, "WGC", 0⟩] = true ∧
    rowKey ⟨"CHN", "China", 10, none, none, none, 300, "WGC", 0⟩ =
      rowKey ⟨"CHN", "Chine", 20, none, none, none, 300, "IMF", 7⟩ ∧
    (((save_batch true [⟨"USA", "USA", 50, none, none, none, 312, "WGC", 0⟩]
        [⟨"CHN", "China", 10, none, none, none, 300, "WGC", 0⟩,
         ⟨"CHN", "Chine", 20, none, none, none, 300, "IMF", 7⟩]).1).filter
      (fun y => keyEq y ⟨"CHN", "Chine", 20, none, none, none, 300, "IMF", 7⟩)).length = 1 ∧
    ∀ x ∈ (((save_batch true [⟨"USA", "USA", 50, none, none, none, 312, "WGC", 0⟩]
        [⟨"CHN", "China", 10, none, none, none, 300, "WGC", 0⟩,
         ⟨"CHN", "Chine", 20, none, none, none, 300, "IMF", 7⟩]).1).filter
      (fun y => keyEq y ⟨"CHN", "Chine", 20, none, none, none, 300, "IMF", 7⟩)),
      nonKeyFields x = nonKeyFields ⟨"CHN", "Chine", 20, none, none, none, 300, "IMF", 7⟩ :=
  ⟨by decide, by decide,
    (save_batch_upsert_last_write_wins
      [⟨"USA", "USA", 50, none, none, none, 312, "WGC", 0⟩]
      [⟨"CHN", "China", 10, none, none, none, 300, "WGC", 0⟩,
       ⟨"CHN", "Chine", 20, none, none, none, 300, "IMF", 7⟩]
      ⟨"CHN", "China", 10, none, none, none, 300, "WGC", 0⟩
      ⟨"CHN", "Chine", 20, none, none, none, 300, "IMF", 7⟩
      (by decide) (by decide)).2.1,
    (save_batch_upsert_last_write_wins
      [⟨"USA", "USA", 50, none, none, none, 312, "WGC", 0⟩]
      [⟨"CHN", "China", 10, none, none, none, 300, "WGC", 0⟩,
       ⟨"CHN", "Chine", 20, none, none, none, 300, "IMF", 7⟩]
      ⟨"CHN", "China", 10, none, none, none, 300, "WGC", 0⟩
      ⟨"CHN", "Chine", 20, none, none, none, 300, "IMF", 7⟩
      (by decide) (by decide)).2.2.1⟩

/- ============================================================
   C6 — batch fetch coverage
   ============================================================ -/

theorem chainLoop_not_done {α : Type} (known : List String) (fb : Bool)
    (behave : String → PResult α)
    (h : ∀ s q, behave s ≠ PResult.ok q) :
    ∀ (pr : List String) (q : α),
      (chainLoop known fb behave pr).1 ≠ FetchOutcome.done q := by
  intro pr
  induction pr with
  | nil =>
    intro q
    simp [chainLoop]
  | cons s rest ih =>
    intro q
    simp only [chainLoop]
    by_cases hs : s ∈ known
    · simp only [if_pos hs]
      cases hb : behave s with
      | ok q' => exact absurd hb (h s q')
      | nores => simpa using ih q
      | err =>
        cases fb with
        | true => simpa using ih q
        | false => simp
    · simp only [if_neg hs]
      exact ih q

/-- Counterexample to C6: one requested fund asset, empty caches, and a
provider chain that only raises.  `fetch_all` returns the empty list — the
requested asset is silently dropped, with no failure marker of any kind. -/
theorem fetch_all_coverage_counterexample :
    fetch_all
      { cacheOf := fun _ => none
        asyncCacheOf := fun _ => none
        sinaBatchOf := fun _ _ => none
        sinaBatchFails := fun _ => false
        globalBatchOf := fun _ => none
        globalBatchFails := false
        singleBehave := fun _ _ => PResult.err
        fallback := true
        quotePriority := ["eastmoney", "sina", "yahoo"] }
      [⟨"000001", "000001", "fund", Market.FUND, AssetType.FUND⟩] = [] := by
  rfl

/-- C6 (amended): `fetch_all` returns a list of successfully obtained
quotes, not a map with failure markers.  When every requested asset misses
the cache and every provider path fails for it (batch endpoints raise,
single-call providers never produce a quote), the returned list is empty:
failed assets are silently dropped rather than marked. -/
theorem fetch_all_drops_failed_assets (env : FetchAllEnv) (assets : List Asset)
    (hc : ∀ a ∈ assets, env.cacheOf a.code = none)
    (ha : ∀ a ∈ assets, env.asyncCacheOf a.code = none)
    (hg : env.globalBatchFails = true)
    (hsb : ∀ m, env.sinaBatchFails m = true)
    (hsingle : ∀ a ∈ assets, ∀ s q, env.singleBehave a s ≠ PResult.ok q) :
    fetch_all env assets = [] := by
  have hhits : assets.filterMap (fun a => env.cacheOf a.code) = [] :=
    List.filterMap_eq_nil_iff.mpr hc
  have hothers : othersBatchQuotes env
      (assets.filter (fun a => isOtherAsset a && (env.cacheOf a.code).isNone)) = [] := by
    rw [othersBatchQuotes, List.filterMap_eq_nil_iff]
    intro a hmem
    have ha1 : a ∈ assets := List.mem_of_mem_filter hmem
    rw [ha a ha1]
    simp only [fetch_single]
    cases hout : (chainLoop knownQuoteSources env.fallback (env.singleBehave a)
        env.quotePriority).1 with
    | done q => exact absurd hout (chainLoop_not_done _ _ _ (hsingle a ha1) _ q)
    | failed => simp [hout]
    | exhausted => simp [hout]
  rw [fetch_all]
  by_cases hrem : assets.filter (fun a => (env.cacheOf a.code).isNone) = []
  · simp [hrem, hhits]
  · simp [hrem, hhits, hothers, globalBatchQuotes, sinaBatchQuotes, hg, hsb]

/-- Witness for the amended C6: two assets — a CN stock whose batch endpoint
raises and a fund whose single-call chain only errors — both dropped. -/
theorem fetch_all_drops_failed_assets_witness :
    fetch_all
      { cacheOf := fun _ => none
        asyncCacheOf := fun _ => none
        sinaBatchOf := fun _ _ => none
        sinaBatchFails := fun _ => true
        globalBatchOf := fun _ => none
        globalBatchFails := true
        singleBehave := fun _ _ => PResult.nores
        fallback := false
        quotePriority := ["eastmoney", "sina", "yahoo"] }
      [⟨"600519", "sh600519", "stock", Market.CN, AssetType.STOCK⟩,
       ⟨"000002", "000002", "fund", Market.FUND, AssetType.FUND⟩] = [] :=
  fetch_all_drops_failed_assets _ _
    (fun _ _ => rfl) (fun _ _ => rfl) rfl (fun _ => rfl)
    (fun _ _ _ _ h => PResult.noConfusion h)

/- ============================================================
   C7 — gold auto-refresh policy on the read path
   ============================================================ -/

/-- Counterexample to C7: database enabled, every country holding an active
schedule with a release day (here day 7), today 2026-01-10, and an EMPTY
store — "CHN" has no stored observation at all (`MISSING`).  A non-forced
read triggers no refetch whatsoever and is answered straight from the
(empty) store. -/
theorem gold_auto_refresh_counterexample :
    countryRows [] "CHN" = [] ∧
    need_fetch false true (fun _ => some ⟨some 7⟩) [] 2026 1 10 = false ∧
    fetch_all_with_auto_update false (fun _ => some ⟨some 7⟩) [] 2026 1 10 []
        true (fun _ => some []) ["wgc", "imf"] = some ([], [], false) := by
  decide

/-- C7 (amended): with the database enabled, `_should_update` returns
`False` for every entity that has a schedule with a release day — it never
consults the stored observations, so `MISSING`/`STALE` entities do not
trigger a refetch; a non-forced read with all top-20 entities so scheduled
performs no fetch and is answered directly from the store.  When a fetch
does run (e.g. forced), the FULL dataset of the first succeeding source is
fetched and upserted — the fetch is never restricted to a single entity. -/
theorem gold_auto_refresh_schedule_blocks (ty tm td : Nat)
    (localReserves : List LocalRow) :
    (∀ (code : String) (rd : Nat),
        should_update true localReserves ty tm td code (some ⟨some rd⟩) = false) ∧
    (∀ (schedules : String → Option Schedule) (store : List GoldRow)
        (fallback : Bool) (sourceData : String → Option (List GoldRow))
        (goldPriority : List String),
      (∀ c ∈ TOP20, ∃ rd : Nat, schedules c = some ⟨some rd⟩) →
      fetch_all_with_auto_update false schedules localReserves ty tm td store
          fallback sourceData goldPriority =
        some (get_latest_with_changes store, store, false)) ∧
    (∀ (schedules : String → Option Schedule) (store : List GoldRow)
        (fallback : Bool) (sourceData : String → Option (List GoldRow))
        (goldPriority : List String) (data : List GoldRow),
      tryGoldSources fallback sourceData goldPriority = some data → data ≠ [] →
      fetch_all_with_auto_update true schedules localReserves ty tm td store
          fallback sourceData goldPriority =
        some (get_latest_with_changes ((save_batch true store data).1),
          (save_batch true store data).1, true)) := by
  have h1 : ∀ (code : String) (rd : Nat),
      should_update true localReserves ty tm td code (some ⟨some rd⟩) = false := by
    intro code rd
    simp [should_update]
  refine ⟨h1, ?_, ?_⟩
  · intro schedules store fb src prio hsched
    have hnf : need_fetch false true schedules localReserves ty tm td = false := by
      rw [need_fetch]
      simp only [Bool.false_or]
      rw [List.any_eq_false]
      intro c hc
      obtain ⟨rd, hrd⟩ := hsched c hc
      rw [hrd]
      simp [h1 c rd]
    simp [fetch_all_with_auto_update, hnf]
  · intro schedules store fb src prio data htry hdata
    have hnf : need_fetch true true schedules localReserves ty tm td = true := by
      rw [need_fetch]
      rfl
    rw [fetch_all_with_auto_update, hnf]
    simp only [if_true]
    rw [htry]
    simp [hdata]

/-- Witness for the amended C7: schedules with release day 15 everywhere,
today 2026-02-20, a store holding only a USA row — a non-forced read does no
fetch and answers from the store. -/
theorem gold_auto_refresh_schedule_blocks_witness :
    should_update true [] 2026 2 20 "CHN" (some ⟨some 15⟩) = false ∧
    fetch_all_with_auto_update false (fun _ => some ⟨some 15⟩) [] 2026 2 20
        [⟨"USA", "USA", 50, none, none, none, 312, "WGC", 0⟩] true
        (fun _ => none) ["wgc"] =
      some (get_latest_with_changes
          [⟨"USA", "USA", 50, none, none, none, 312, "WGC", 0⟩],
        [⟨"USA", "USA", 50, none, none, none, 312, "WGC", 0⟩], false) :=
  ⟨(gold_auto_refresh_schedule_blocks 2026 2 20 []).1 "CHN" 15,
    (gold_auto_refresh_schedule_blocks 2026 2 20 []).2.1
      (fun _ => some ⟨some 15⟩)
      [⟨"USA", "USA", 50, none, none, none, 312, "WGC", 0⟩] true
      (fun _ => none) ["wgc"] (fun _ _ => ⟨15, rfl⟩)⟩
